import Mathlib

/-!
Shallow embedding of the sample-finder feature pipeline and search engine:
`src/app/processing/extract_features.py` (AudioFeatureExtractor) and
`src/app/search_engine/semantic_search.py` (SemanticSearchEngine).
Python floats are idealised as exact rationals, with explicit constructors for
the non-finite values NaN and ±Inf that numpy can produce.
-/

namespace SampleFinder

unseal Rat.add Rat.sub Rat.mul

/-- A Python float value as produced by the DSP extractors: either a finite
rational (idealising IEEE floats as exact rationals) or a non-finite value
(NaN, +Inf, -Inf), which numpy propagates without error. -/
inductive PyFloat where
  | fin : ℚ → PyFloat
  | nan : PyFloat
  | inf : PyFloat
  | ninf : PyFloat
deriving DecidableEq, Repr

/-- Column keys of the features dict built by
`AudioFeatureExtractor.extract_features_from_file` (and hence of the CSV
written by `process_directory`). `mfcc n` stands for the column name
`f"mfcc_{n}"`; the string column names are injectively abstracted. -/
inductive Key where
  | file_name : Key
  | file_path : Key
  | duration_sec : Key
  | tempo_bpm : Key
  | estimated_key : Key
  | spectral_centroid : Key
  | spectral_bandwidth : Key
  | spectral_rolloff : Key
  | mfcc : Nat → Key
deriving DecidableEq, Repr

/-- A cell value in the features dict: a string (identifiers, key label) or a
number. pandas gives numeric dtype exactly to the numeric columns. -/
inductive Value where
  | str : String → Value
  | num : PyFloat → Value
deriving DecidableEq, Repr

/-- The outputs of the librosa calls for one decodable file
(`librosa.get_duration`, `librosa.beat.beat_track`, the chroma argmax key
label, the three spectral-shape means, and the per-coefficient MFCC means).
librosa is an external library, so its outputs are parameters of the model;
`librosa.feature.mfcc(..., n_mfcc=13)` yields 13 coefficient rows, so the
pipeline always produces `mfcc` of length 13. -/
structure ExtractorOutputs where
  duration_sec : PyFloat
  tempo_bpm : PyFloat
  estimated_key : String
  spectral_centroid : PyFloat
  spectral_bandwidth : PyFloat
  spectral_rolloff : PyFloat
  mfcc : List PyFloat
deriving DecidableEq, Repr

/-- An input audio file, abstracted by what happens inside the `try` block of
`extract_features_from_file`: `bad` if `librosa.load` or any extractor raises
(caught by the `except` branch), `good` with name, path and the extractor
outputs otherwise. -/
inductive AudioFile where
  | bad : String → AudioFile
  | good : String → String → ExtractorOutputs → AudioFile
deriving DecidableEq, Repr

/-- The file's name (`file_path.name` in the source). -/
def AudioFile.name : AudioFile → String
  | .bad n => n
  | .good n _ _ => n

/-- Whether extraction of this file fails. -/
def AudioFile.isBad : AudioFile → Bool
  | .bad _ => true
  | .good _ _ _ => false

/-- The features dict built by `extract_features_from_file` for a decodable
file, in Python dict insertion order: identifiers, duration, tempo, key,
the three spectral features, then `mfcc_1 .. mfcc_{len}`. -/
def featureDict (name path : String) (o : ExtractorOutputs) : List (Key × Value) :=
  [(Key.file_name, Value.str name),
   (Key.file_path, Value.str path),
   (Key.duration_sec, Value.num o.duration_sec),
   (Key.tempo_bpm, Value.num o.tempo_bpm),
   (Key.estimated_key, Value.str o.estimated_key),
   (Key.spectral_centroid, Value.num o.spectral_centroid),
   (Key.spectral_bandwidth, Value.num o.spectral_bandwidth),
   (Key.spectral_rolloff, Value.num o.spectral_rolloff)]
  ++ o.mfcc.enum.map (fun p => (Key.mfcc (p.1 + 1), Value.num p.2))

/-- Model of `AudioFeatureExtractor.extract_features_from_file`: returns the features
dict, or `None` when any exception was raised (the whole body is one
`try/except` returning `None`). -/
def extract_features_from_file : AudioFile → Option (List (Key × Value))
  | .bad _ => none
  | .good name path o => some (featureDict name path o)

/-- Python list slice `l[:i]`, including the negative-`i` semantics. -/
def pyTake {α : Type} (l : List α) (i : Int) : List α :=
  if 0 ≤ i then l.take i.toNat else l.take ((l.length : Int) + i).toNat

/-- The files actually processed by `process_directory`: the guard is
`if limit:`, Python truthiness, so `None` and `0` both mean "no limit". -/
def selectFiles (files : List AudioFile) (limit : Option Int) : List AudioFile :=
  match limit with
  | none => files
  | some l => if l = 0 then files else pyTake files l

/-- Result of one `process_directory` run: the collected feature dicts (in
processing order), the names of files whose extraction failed (each is
reported with a warning log, not raised), and whether the CSV was written
(`if feature_list:`). -/
structure BatchResult where
  records : List (List (Key × Value))
  failures : List String
  saved : Bool
deriving DecidableEq, Repr

/-- Model of `AudioFeatureExtractor.process_directory`: extract each selected file,
keep the successful dicts, record the failures, save iff any record
succeeded. The function returns normally in every case. -/
def process_directory (files : List AudioFile) (limit : Option Int) : BatchResult :=
  let selected := selectFiles files limit
  let records := selected.filterMap extract_features_from_file
  { records := records
    failures := (selected.filter (fun f => (extract_features_from_file f).isNone)).map AudioFile.name
    saved := !records.isEmpty }

/-- Default `exclude_cols` of `SemanticSearchEngine`. -/
def exclude_cols : List Key := [Key.file_name, Key.file_path, Key.estimated_key]

/-- One cell of `_load_features`: dropped if its column is excluded or
non-numeric, kept otherwise. -/
def numCell (kv : Key × Value) : Option PyFloat :=
  if kv.1 ∈ exclude_cols then none
  else
    match kv.2 with
    | Value.num x => some x
    | Value.str _ => none

/-- One record's row of `feature_matrix` as selected by `_load_features`:
drop the excluded columns, keep the numeric ones, preserving column order.
This is the numeric vector handed to the FAISS index. -/
def numericVector (row : List (Key × Value)) : List PyFloat :=
  row.filterMap numCell

/-- Squared Euclidean (L2) distance between two vectors, the metric computed
by `faiss.IndexFlatL2` (exact rational arithmetic idealises float32). -/
def sqDist (u v : List ℚ) : ℚ :=
  ((u.zip v).map (fun p => (p.1 - p.2) * (p.1 - p.2))).sum

/-- Ascending (distance, row id) lexicographic order by which FAISS exact
search ranks the stored rows. -/
def neighborLE (a b : Int × ℚ) : Prop :=
  a.2 < b.2 ∨ (a.2 = b.2 ∧ a.1 ≤ b.1)

instance : DecidableRel neighborLE := fun a b =>
  inferInstanceAs (Decidable (a.2 < b.2 ∨ (a.2 = b.2 ∧ a.1 ≤ b.1)))

instance : IsTrans (Int × ℚ) neighborLE := by
  constructor
  intro a b c h1 h2
  simp only [neighborLE] at h1 h2 ⊢
  rcases h1 with h1 | ⟨e1, l1⟩ <;> rcases h2 with h2 | ⟨e2, l2⟩
  · exact Or.inl (h1.trans h2)
  · exact Or.inl (e2 ▸ h1)
  · exact Or.inl (e1 ▸ h2)
  · exact Or.inr ⟨e1.trans e2, l1.trans l2⟩

instance : IsTotal (Int × ℚ) neighborLE := by
  constructor
  intro a b
  simp only [neighborLE]
  rcases lt_trichotomy a.2 b.2 with h | h | h
  · exact Or.inl (Or.inl h)
  · rcases le_total a.1 b.1 with h1 | h1
    · exact Or.inl (Or.inr ⟨h, h1⟩)
    · exact Or.inr (Or.inr ⟨h.symm, h1⟩)
  · exact Or.inr (Or.inl h)

/-- Every stored row paired with its squared distance to the query. -/
def scoredList (matrix : List (List ℚ)) (q : List ℚ) : List (Int × ℚ) :=
  (List.range matrix.length).map (fun (i : Nat) => ((i : Int), sqDist (matrix.getD i []) q))

/-- Model of `faiss.IndexFlatL2.search` on one query: rank all rows by
ascending squared L2 distance (ties by ascending row id), return the first
`k`; when `k` exceeds `ntotal`, FAISS pads the result with id `-1` and a
sentinel distance larger than any real one (modelled as `⊤`). -/
def faissSearch (matrix : List (List ℚ)) (q : List ℚ) (k : Nat) :
    List (Int × WithTop ℚ) :=
  (((scoredList matrix q).insertionSort neighborLE).take k).map
      (fun p => (p.1, (p.2 : WithTop ℚ)))
    ++ List.replicate (k - matrix.length) (-1, (⊤ : WithTop ℚ))

/-- One loaded feature row as the engine sees it: the `file_name` metadata
column together with the row of `feature_matrix`. -/
abbrev Row : Type := String × List ℚ

/-- Model of `SemanticSearchEngine.__init__` / `_load_features` / `_build_index`:
`pd.read_csv` raises `FileNotFoundError` when the features file is missing;
otherwise the rows are loaded and the index is built over them with no
emptiness check anywhere (`IndexFlatL2.add` accepts zero vectors). -/
def engineInit (csv : Option (List Row)) : Except String (List Row) :=
  match csv with
  | none => Except.error "FileNotFoundError"
  | some rows => Except.ok rows

/-- Model of `SemanticSearchEngine.query_by_vector`: a direct pass-through to the
FAISS search over the stored matrix, returning (row id, distance) pairs. -/
def query_by_vector (matrix : List (List ℚ)) (v : List ℚ) (k : Nat) :
    List (Int × WithTop ℚ) :=
  faissSearch matrix v k

/-- Model of `metadata_df.iloc[i]` at an integer position: Python negative indices
count from the end (FAISS pad id `-1` resolves to the last row). -/
def pyIloc (rows : List Row) (i : Int) : Row :=
  if 0 ≤ i then rows.getD i.toNat ("", [])
  else rows.getD ((rows.length : Int) + i).toNat ("", [])

/-- Model of `SemanticSearchEngine.query_by_sample`: find the first row position whose
`file_name` matches (`metadata_df[...].index; idx[0]`), raise `ValueError`
("Sample not found") when there is none, otherwise search for `k + 1`
neighbors with that row's vector, join the returned positions back to the
metadata rows via `iloc`, drop rows whose `file_name` equals the query's,
and keep the first `k`. -/
def query_by_sample (rows : List Row) (file_name : String) (k : Nat) :
    Except String (List (Row × WithTop ℚ)) :=
  match rows.findIdx? (fun r => r.1 == file_name) with
  | none => Except.error ("Sample not found: " ++ file_name)
  | some i =>
    let q := (rows.getD i ("", [])).2
    let results := query_by_vector (rows.map Prod.snd) q (k + 1)
    let joined := results.map (fun p => (pyIloc rows p.1, p.2))
    Except.ok ((joined.filter (fun p => !(p.1.1 == file_name))).take k)

/-- The ordering the spec requires of search results: ascending distance,
ties broken by ascending row id (padding entries carry distance `⊤`). -/
def resLE (a b : Int × WithTop ℚ) : Prop :=
  a.2 < b.2 ∨ (a.2 = b.2 ∧ a.1 ≤ b.1)

/-! Helper lemmas about the extraction layer. -/

theorem extract_isNone (f : AudioFile) :
    (extract_features_from_file f).isNone = AudioFile.isBad f := by
  cases f <;> rfl

theorem length_filterMap_extract (files : List AudioFile) :
    (files.filterMap extract_features_from_file).length
      = files.length - files.countP AudioFile.isBad := by
  induction files with
  | nil => rfl
  | cons f fs ih =>
    have hle : fs.countP AudioFile.isBad ≤ fs.length := List.countP_le_length _
    cases f with
    | bad n =>
      have hc : (AudioFile.bad n :: fs).countP AudioFile.isBad
          = fs.countP AudioFile.isBad + 1 := by
        simp [List.countP_cons, AudioFile.isBad]
      simp only [extract_features_from_file, List.filterMap_cons_none, ih, hc,
        List.length_cons]
      omega
    | good n p o =>
      have hc : (AudioFile.good n p o :: fs).countP AudioFile.isBad
          = fs.countP AudioFile.isBad := by
        simp [List.countP_cons, AudioFile.isBad]
      have hstep : (AudioFile.good n p o :: fs).filterMap extract_features_from_file
          = featureDict n p o :: fs.filterMap extract_features_from_file := rfl
      simp only [hstep, List.length_cons, ih, hc]
      omega

/-- C10: a `limit` argument of 0 is Python-falsy (`if limit:`), so it behaves
exactly like no limit: every discovered file is processed; a positive limit
`L` processes exactly the first `L` discovered files. -/
theorem C10_limit_semantics (files : List AudioFile) (L : Int) (hL : 0 < L) :
    process_directory files (some 0) = process_directory files none ∧
    process_directory files (some L) = process_directory (files.take L.toNat) none := by
  constructor
  · rfl
  · simp only [process_directory, selectFiles, pyTake, if_neg hL.ne', if_pos hL.le]

theorem C10_limit_semantics_witness :
    process_directory [AudioFile.bad "x"] (some 0)
        = process_directory [AudioFile.bad "x"] none ∧
    process_directory [AudioFile.bad "x"] (some 1)
        = process_directory ([AudioFile.bad "x"].take (1 : Int).toNat) none :=
  C10_limit_semantics [AudioFile.bad "x"] 1 (by decide)

/-- C6: a batch in which exactly one file fails extraction is not aborted:
the batch returns normally with one record for every other file (every good
file's dict is in the store), and exactly one failure is reported. -/
theorem C6_one_bad_file_isolation (files : List AudioFile)
    (h1 : files.countP AudioFile.isBad = 1) :
    (process_directory files none).records.length = files.length - 1 ∧
    (process_directory files none).failures.length = 1 ∧
    ∀ name path o, AudioFile.good name path o ∈ files →
      featureDict name path o ∈ (process_directory files none).records := by
  refine ⟨?_, ?_, ?_⟩
  · simp only [process_directory, selectFiles]
    rw [length_filterMap_extract, h1]
  · simp only [process_directory, selectFiles, List.length_map]
    rw [← List.countP_eq_length_filter,
      List.countP_congr (fun f _ => by rw [extract_isNone f]), h1]
  · intro name path o hmem
    simp only [process_directory, selectFiles]
    exact List.mem_filterMap.mpr ⟨AudioFile.good name path o, hmem, rfl⟩

theorem C6_one_bad_file_isolation_witness :
    (process_directory [AudioFile.good "a" "p" ⟨PyFloat.fin 1, PyFloat.fin 120, "C",
        PyFloat.fin 2, PyFloat.fin 3, PyFloat.fin 4, []⟩, AudioFile.bad "b"]
        none).records.length
      = [AudioFile.good "a" "p" ⟨PyFloat.fin 1, PyFloat.fin 120, "C",
          PyFloat.fin 2, PyFloat.fin 3, PyFloat.fin 4, []⟩, AudioFile.bad "b"].length - 1 ∧
    (process_directory [AudioFile.good "a" "p" ⟨PyFloat.fin 1, PyFloat.fin 120, "C",
        PyFloat.fin 2, PyFloat.fin 3, PyFloat.fin 4, []⟩, AudioFile.bad "b"]
        none).failures.length = 1 :=
  ⟨(C6_one_bad_file_isolation _ (by decide)).1,
   (C6_one_bad_file_isolation _ (by decide)).2.1⟩

/-- C9 counterexample: a record whose `spectral_centroid` is NaN is produced
by assembly and appended to the store unchanged — there is no rejection. -/
theorem C9_nan_record_enters_store :
    (Key.spectral_centroid, Value.num PyFloat.nan)
        ∈ featureDict "a" "p" ⟨PyFloat.fin 1, PyFloat.fin 120, "C",
            PyFloat.nan, PyFloat.fin 0, PyFloat.fin 0, List.replicate 13 (PyFloat.fin 0)⟩ ∧
    (process_directory [AudioFile.good "a" "p" ⟨PyFloat.fin 1, PyFloat.fin 120, "C",
        PyFloat.nan, PyFloat.fin 0, PyFloat.fin 0, List.replicate 13 (PyFloat.fin 0)⟩]
        none).records
      = [featureDict "a" "p" ⟨PyFloat.fin 1, PyFloat.fin 120, "C",
          PyFloat.nan, PyFloat.fin 0, PyFloat.fin 0, List.replicate 13 (PyFloat.fin 0)⟩] := by
  constructor
  · decide
  · rfl

/-- C9 (amended): assembly performs no finiteness check — every record
produced by extraction is appended to the store as-is, whatever non-finite
values its numeric fields hold. -/
theorem C9_no_finiteness_check (name path : String) (o : ExtractorOutputs) :
    (process_directory [AudioFile.good name path o] none).records
      = [featureDict name path o] := by
  rfl

/-- C4 counterexample: a batch whose only file fails returns normally
(records empty, nothing saved, no exception), and building the engine over a
loaded store with zero rows succeeds — no `EmptyStoreError` exists. -/
theorem C4_no_empty_store_error :
    process_directory [AudioFile.bad "x"] none
      = { records := [], failures := ["x"], saved := false } ∧
    engineInit (some []) = Except.ok [] := by
  exact ⟨rfl, rfl⟩

/-- C4 (amended): a batch in which every extraction fails does not fail the
build: it returns normally with an empty record list, all failures reported
and nothing saved; loading a missing features file raises
`FileNotFoundError`, and index construction has no emptiness check: any
loaded store, zero rows included, yields a built engine. -/
theorem C4_empty_batch_behavior (files : List AudioFile)
    (h : ∀ f ∈ files, AudioFile.isBad f = true) :
    (process_directory files none).records = [] ∧
    (process_directory files none).saved = false ∧
    (process_directory files none).failures = files.map AudioFile.name ∧
    engineInit none = Except.error "FileNotFoundError" ∧
    ∀ rows, engineInit (some rows) = Except.ok rows := by
  have hnone : ∀ f ∈ files, extract_features_from_file f = none := by
    intro f hf
    cases f with
    | bad n => rfl
    | good n p o => exact absurd (h _ hf) (by simp [AudioFile.isBad])
  have hrec : files.filterMap extract_features_from_file = [] :=
    List.filterMap_eq_nil_iff.mpr hnone
  refine ⟨?_, ?_, ?_, rfl, fun rows => rfl⟩
  · simp only [process_directory, selectFiles]
    exact hrec
  · simp only [process_directory, selectFiles, hrec, List.isEmpty_nil, Bool.not_true]
  · simp only [process_directory, selectFiles]
    congr 1
    exact List.filter_eq_self.mpr (fun f hf => by simp [hnone f hf])

theorem C4_empty_batch_behavior_witness :
    (process_directory [AudioFile.bad "x", AudioFile.bad "y"] none).records = [] ∧
    (process_directory [AudioFile.bad "x", AudioFile.bad "y"] none).saved = false ∧
    (process_directory [AudioFile.bad "x", AudioFile.bad "y"] none).failures
      = [AudioFile.bad "x", AudioFile.bad "y"].map AudioFile.name ∧
    engineInit none = Except.error "FileNotFoundError" ∧
    ∀ rows, engineInit (some rows) = Except.ok rows :=
  C4_empty_batch_behavior [AudioFile.bad "x", AudioFile.bad "y"] (by decide)

theorem filterMap_numCell_enumFrom (ms : List PyFloat) (n : Nat) :
    ((ms.enumFrom n).map (fun p => (Key.mfcc (p.1 + 1), Value.num p.2))).filterMap numCell
      = ms := by
  induction ms generalizing n with
  | nil => rfl
  | cons m ms ih =>
    have hcell : numCell (Key.mfcc (n + 1), Value.num m) = some m := rfl
    simp only [List.enumFrom, List.map_cons, List.filterMap_cons, hcell]
    rw [ih]

theorem filterMap_numCell_mfcc (ms : List PyFloat) :
    (ms.enum.map (fun p => (Key.mfcc (p.1 + 1), Value.num p.2))).filterMap numCell
      = ms :=
  filterMap_numCell_enumFrom ms 0

/-- C1 counterexample: for the default 13 MFCCs, the numeric vector handed to
the index has length 18, not 4 + 13 = 17, and its first entry is
`duration_sec` rather than `tempo_bpm` — `duration_sec` is numeric and not in
`exclude_cols`, so `_load_features` keeps it. -/
theorem C1_dimension_is_18_not_17 :
    (numericVector (featureDict "a" "p" ⟨PyFloat.fin 9, PyFloat.fin 120, "C",
        PyFloat.fin 1, PyFloat.fin 2, PyFloat.fin 3,
        List.replicate 13 (PyFloat.fin 0)⟩)).length = 18 ∧
    ¬ (numericVector (featureDict "a" "p" ⟨PyFloat.fin 9, PyFloat.fin 120, "C",
        PyFloat.fin 1, PyFloat.fin 2, PyFloat.fin 3,
        List.replicate 13 (PyFloat.fin 0)⟩)).length = 4 + 13 ∧
    (numericVector (featureDict "a" "p" ⟨PyFloat.fin 9, PyFloat.fin 120, "C",
        PyFloat.fin 1, PyFloat.fin 2, PyFloat.fin 3,
        List.replicate 13 (PyFloat.fin 0)⟩)).head? = some (PyFloat.fin 9) := by
  decide

/-- C1 (amended): for every record built by the pipeline with MFCC count
N = 13, the index vector has constant length 5 + N = 18 and is the
concatenation of `duration_sec`, `tempo_bpm`, `spectral_centroid`,
`spectral_bandwidth`, `spectral_rolloff`, `mfcc_1..mfcc_N`, excluding the
identifiers and the categorical key. -/
theorem C1_index_vector_composition (name path : String) (o : ExtractorOutputs)
    (h : o.mfcc.length = 13) :
    numericVector (featureDict name path o)
      = [o.duration_sec, o.tempo_bpm, o.spectral_centroid, o.spectral_bandwidth,
         o.spectral_rolloff] ++ o.mfcc ∧
    (numericVector (featureDict name path o)).length = 5 + 13 := by
  have hvec : numericVector (featureDict name path o)
      = [o.duration_sec, o.tempo_bpm, o.spectral_centroid, o.spectral_bandwidth,
         o.spectral_rolloff] ++ o.mfcc := by
    simp only [numericVector, featureDict, List.filterMap_append,
      filterMap_numCell_mfcc]
    rfl
  exact ⟨hvec, by rw [hvec]; simp [h]⟩

theorem C1_index_vector_composition_witness :
    numericVector (featureDict "a" "p" ⟨PyFloat.fin 9, PyFloat.fin 120, "C",
        PyFloat.fin 1, PyFloat.fin 2, PyFloat.fin 3,
        List.replicate 13 (PyFloat.fin 0)⟩)
      = [PyFloat.fin 9, PyFloat.fin 120, PyFloat.fin 1, PyFloat.fin 2,
         PyFloat.fin 3] ++ List.replicate 13 (PyFloat.fin 0) ∧
    (numericVector (featureDict "a" "p" ⟨PyFloat.fin 9, PyFloat.fin 120, "C",
        PyFloat.fin 1, PyFloat.fin 2, PyFloat.fin 3,
        List.replicate 13 (PyFloat.fin 0)⟩)).length = 5 + 13 :=
  C1_index_vector_composition "a" "p" _ (by decide)

/-- C5: `query_by_sample` fails with the "Sample not found" error exactly
when no record in the store has the queried `file_name`; when the name is
present a result list is produced instead. -/
theorem C5_not_found_iff (rows : List Row) (name : String) (k : Nat) :
    ((∃ msg, query_by_sample rows name k = Except.error msg)
        ↔ name ∉ rows.map Prod.fst) ∧
    ((∃ res, query_by_sample rows name k = Except.ok res)
        ↔ name ∈ rows.map Prod.fst) := by
  by_cases hin : name ∈ rows.map Prod.fst
  · obtain ⟨r, hr, hrname⟩ := List.mem_map.mp hin
    have hsome : (rows.findIdx? (fun r => r.1 == name)).isSome := by
      rw [List.findIdx?_isSome]
      exact List.any_eq_true.mpr ⟨r, hr, by simp [hrname]⟩
    obtain ⟨i, hi⟩ := Option.isSome_iff_exists.mp hsome
    simp [query_by_sample, hi, hin]
  · have hnone : rows.findIdx? (fun r => r.1 == name) = none := by
      rw [List.findIdx?_eq_none_iff]
      intro x hx
      simp only [beq_eq_false_iff_ne, ne_eq]
      intro hxname
      exact hin (List.mem_map.mpr ⟨x, hx, hxname⟩)
    simp [query_by_sample, hnone, hin]

/-! Helper lemmas about the search layer. -/

theorem sqDist_nonneg (u v : List ℚ) : 0 ≤ sqDist u v := by
  unfold sqDist
  apply List.sum_nonneg
  intro x hx
  obtain ⟨p, _, rfl⟩ := List.mem_map.mp hx
  exact mul_self_nonneg _

theorem sqDist_self (v : List ℚ) : sqDist v v = 0 := by
  induction v with
  | nil => rfl
  | cons a v ih =>
    simp only [sqDist, List.zip_cons_cons, List.map_cons, List.sum_cons] at ih ⊢
    rw [ih]
    ring

theorem length_scoredList (matrix : List (List ℚ)) (q : List ℚ) :
    (scoredList matrix q).length = matrix.length := by
  simp [scoredList]

theorem mem_scoredList {matrix : List (List ℚ)} {q : List ℚ} {x : Int × ℚ} :
    x ∈ scoredList matrix q ↔
      ∃ i : Nat, i < matrix.length ∧ x = ((i : Int), sqDist (matrix.getD i []) q) := by
  unfold scoredList
  rw [List.mem_map]
  constructor
  · rintro ⟨i, hi, rfl⟩
    exact ⟨i, List.mem_range.mp hi, rfl⟩
  · rintro ⟨i, hi, rfl⟩
    exact ⟨i, List.mem_range.mpr hi, rfl⟩

theorem nodup_scoredList_fst (matrix : List (List ℚ)) (q : List ℚ) :
    ((scoredList matrix q).map Prod.fst).Nodup := by
  unfold scoredList
  rw [List.map_map]
  have he : (Prod.fst ∘ fun (i : Nat) => ((i : Int), sqDist (matrix.getD i []) q))
      = fun (i : Nat) => (i : Int) := rfl
  rw [he]
  exact (List.nodup_range _).map (fun a b h => by exact_mod_cast h)

/-- C7: results of any search are non-decreasing in distance, and among
entries of equal distance the row ids are non-decreasing (padding entries,
with distance `⊤` and id -1, sit at the end and respect the order too). -/
theorem C7_search_ordering (matrix : List (List ℚ)) (q : List ℚ) (k : Nat) :
    (query_by_vector matrix q k).Pairwise resLE := by
  unfold query_by_vector faissSearch
  rw [List.pairwise_append]
  refine ⟨?_, ?_, ?_⟩
  · have hs : ((scoredList matrix q).insertionSort neighborLE).Pairwise neighborLE :=
      List.sorted_insertionSort neighborLE _
    have ht := hs.sublist (List.take_sublist k _)
    rw [List.pairwise_map]
    refine ht.imp ?_
    intro a b hab
    simp only [neighborLE] at hab
    unfold resLE
    dsimp only
    rcases hab with h | ⟨he, hl⟩
    · exact Or.inl (by exact_mod_cast h)
    · exact Or.inr ⟨by exact_mod_cast he, hl⟩
  · exact List.pairwise_replicate.mpr (Or.inr (Or.inr ⟨rfl, le_refl _⟩))
  · intro a ha b hb
    obtain ⟨p, _, rfl⟩ := List.mem_map.mp ha
    have hb' := List.eq_of_mem_replicate hb
    subst hb'
    exact Or.inl (WithTop.coe_lt_top _)

/-- C3 counterexample: over a store of N = 1 record, a search with k = 2 is
not clamped to N: it returns 2 entries, the second of which is the FAISS
padding (-1, sentinel) and refers to no stored record. -/
theorem C3_no_clamp_counterexample :
    query_by_vector [[(0 : ℚ)]] [0] 2
      = [(0, ((0 : ℚ) : WithTop ℚ)), (-1, ⊤)] ∧
    ¬ (query_by_vector [[(0 : ℚ)]] [0] 2).length = 1 := by
  constructor
  · rfl
  · decide

/-- C3 (amended): `k` is not clamped: the search always returns exactly `k`
entries; the first `min k N` are valid rows of the store (a real row id with
its real distance), and when `k > N` the remaining `k - N` entries are the
FAISS padding (-1, ⊤). -/
theorem C3_no_clamping (matrix : List (List ℚ)) (q : List ℚ) (k : Nat) :
    (query_by_vector matrix q k).length = k ∧
    (∀ p ∈ (query_by_vector matrix q k).take matrix.length,
      ∃ i : Nat, i < matrix.length ∧ p.1 = (i : Int)
        ∧ p.2 = (sqDist (matrix.getD i []) q : WithTop ℚ)) ∧
    (query_by_vector matrix q k).drop matrix.length
      = List.replicate (k - matrix.length) (-1, (⊤ : WithTop ℚ)) := by
  have hlenA : ((((scoredList matrix q).insertionSort neighborLE).take k).map
      (fun p => ((p.1 : Int), (p.2 : WithTop ℚ)))).length = min k matrix.length := by
    simp only [List.length_map, List.length_take, List.length_insertionSort,
      length_scoredList]
  have hmemA : ∀ p ∈ (((scoredList matrix q).insertionSort neighborLE).take k).map
      (fun p => ((p.1 : Int), (p.2 : WithTop ℚ))),
      ∃ i : Nat, i < matrix.length ∧ p.1 = (i : Int)
        ∧ p.2 = (sqDist (matrix.getD i []) q : WithTop ℚ) := by
    intro p hp
    obtain ⟨a, ha, rfl⟩ := List.mem_map.mp hp
    have ha' : a ∈ scoredList matrix q :=
      (List.mem_insertionSort neighborLE).mp (List.take_subset _ _ ha)
    obtain ⟨i, hi, rfl⟩ := mem_scoredList.mp ha'
    exact ⟨i, hi, rfl, rfl⟩
  refine ⟨?_, ?_, ?_⟩
  · simp only [query_by_vector, faissSearch, List.length_append, List.length_map,
      List.length_take, List.length_insertionSort, length_scoredList,
      List.length_replicate]
    omega
  · intro p hp
    rcases Nat.le_total k matrix.length with hk | hk
    · have hpad : k - matrix.length = 0 := Nat.sub_eq_zero_of_le hk
      rw [query_by_vector, faissSearch, hpad] at hp
      simp only [List.replicate_zero, List.append_nil] at hp
      exact hmemA p (List.take_subset _ _ hp)
    · rw [query_by_vector, faissSearch,
        List.take_left' (by rw [hlenA]; omega)] at hp
      exact hmemA p hp
  · rcases Nat.le_total k matrix.length with hk | hk
    · have hpad : k - matrix.length = 0 := Nat.sub_eq_zero_of_le hk
      rw [query_by_vector, faissSearch, hpad]
      simp only [List.replicate_zero, List.append_nil]
      refine List.drop_eq_nil_of_le ?_
      rw [hlenA]
      omega
    · rw [query_by_vector, faissSearch,
        List.drop_left' (by rw [hlenA]; omega)]

/-- C8 counterexample: in a store whose rows 0 and 1 hold the same vector,
querying with row 1's own vector and k = 1 returns row 0, not row 1 (the
distance tie is broken by the lower row id). -/
theorem C8_duplicate_vector_counterexample :
    query_by_vector [[(0 : ℚ)], [0]] [0] 1 = [(0, ((0 : ℚ) : WithTop ℚ))] ∧
    ¬ ((1 : Int), ((0 : ℚ) : WithTop ℚ)) ∈ query_by_vector [[(0 : ℚ)], [0]] [0] 1 := by
  constructor
  · rfl
  · decide

/-- C8 (amended): querying with record R's stored vector and k = 1 returns
exactly row R with distance 0, provided no other row of the store is at
distance 0 from R's vector; with duplicate vectors the smallest such row id
is returned instead. -/
theorem C8_self_match (matrix : List (List ℚ)) (R : Nat) (hR : R < matrix.length)
    (huniq : ∀ j, j < matrix.length → j ≠ R →
      sqDist (matrix.getD j []) (matrix.getD R []) ≠ 0) :
    query_by_vector matrix (matrix.getD R []) 1
      = [((R : Int), ((0 : ℚ) : WithTop ℚ))] := by
  have hlen : ((scoredList matrix (matrix.getD R [])).insertionSort neighborLE).length
      = matrix.length := by
    rw [List.length_insertionSort, length_scoredList]
  have hpad : 1 - matrix.length = 0 := Nat.sub_eq_zero_of_le (by omega)
  cases hL : (scoredList matrix (matrix.getD R [])).insertionSort neighborLE with
  | nil =>
    rw [hL] at hlen
    simp at hlen
    omega
  | cons h t =>
    have hmemR : ((R : Int), (0 : ℚ))
        ∈ (scoredList matrix (matrix.getD R [])).insertionSort neighborLE := by
      rw [List.mem_insertionSort, mem_scoredList]
      exact ⟨R, hR, by rw [sqDist_self]⟩
    have hsort : ((scoredList matrix (matrix.getD R [])).insertionSort neighborLE).Pairwise
        neighborLE :=
      List.sorted_insertionSort neighborLE _
    have hhead : h = ((R : Int), (0 : ℚ)) := by
      have hh : h ∈ (scoredList matrix (matrix.getD R [])).insertionSort neighborLE := by
        rw [hL]; exact List.mem_cons_self _ _
      have hh' := (List.mem_insertionSort neighborLE).mp hh
      obtain ⟨j, hj, rfl⟩ := mem_scoredList.mp hh'
      rw [hL] at hmemR hsort
      rcases List.mem_cons.mp hmemR with he | ht
      · exact he.symm
      · have hle : neighborLE ((j : Int), sqDist (matrix.getD j []) (matrix.getD R []))
            ((R : Int), (0 : ℚ)) := (List.pairwise_cons.mp hsort).1 _ ht
        simp only [neighborLE] at hle
        rcases hle with hlt | ⟨heq, hje⟩
        · exact absurd hlt (not_lt.mpr (sqDist_nonneg _ _))
        · by_cases hjR : j = R
          · subst hjR
            rw [sqDist_self]
          · exact absurd heq (huniq j hj hjR)
    rw [query_by_vector, faissSearch, hpad, hL, hhead]
    rfl

theorem C8_self_match_witness :
    query_by_vector [[(0 : ℚ)], [1]] ([[(0 : ℚ)], [1]].getD 0 []) 1
      = [(((0 : Nat) : Int), ((0 : ℚ) : WithTop ℚ))] :=
  C8_self_match [[(0 : ℚ)], [1]] 0 (by decide)
    (by
      intro j hj hne
      simp only [List.length_cons, List.length_nil] at hj
      have hj1 : j = 1 := by omega
      subst hj1
      decide)

theorem getD_eq_getElem {α : Type} (l : List α) (d : α) {n : Nat} (h : n < l.length) :
    l.getD n d = l.get ⟨n, h⟩ := by
  simp [List.getD_eq_getElem?_getD, List.getElem?_eq_getElem h]

theorem pyIloc_ofNat (rows : List Row) (j : Nat) :
    pyIloc rows (j : Int) = rows.getD j ("", []) := by
  simp [pyIloc]

theorem name_index_unique (rows : List Row) (name : String)
    (hnd : (rows.map Prod.fst).Nodup) {j1 j2 : Nat}
    (h1 : j1 < rows.length) (h2 : j2 < rows.length)
    (e1 : (rows.getD j1 ("", [])).1 = name) (e2 : (rows.getD j2 ("", [])).1 = name) :
    j1 = j2 := by
  have hl1 : j1 < (rows.map Prod.fst).length := by simpa using h1
  have hl2 : j2 < (rows.map Prod.fst).length := by simpa using h2
  have g1 : (rows.map Prod.fst)[j1] = name := by
    rw [List.getElem_map]
    rw [getD_eq_getElem rows ("", []) h1] at e1
    simpa using e1
  have g2 : (rows.map Prod.fst)[j2] = name := by
    rw [List.getElem_map]
    rw [getD_eq_getElem rows ("", []) h2] at e2
    simpa using e2
  exact (hnd.getElem_inj_iff).mp (g1.trans g2.symm)

theorem countP_bnot {α : Type} (l : List α) (p : α → Bool) :
    l.countP (fun a => !(p a)) = l.length - l.countP p := by
  induction l with
  | nil => rfl
  | cons x xs ih =>
    have hle : xs.countP p ≤ xs.length := List.countP_le_length _
    rw [List.countP_cons, List.countP_cons, List.length_cons, ih]
    cases h : p x
    · simp [h]
      omega
    · simp [h]

theorem countP_iloc_le_one (rows : List Row) (name : String)
    (hnd : (rows.map Prod.fst).Nodup) :
    ∀ l : List (Int × ℚ), (l.map Prod.fst).Nodup →
      (∀ x ∈ l, ∃ j : Nat, j < rows.length ∧ x.1 = (j : Int)) →
      l.countP (fun a => ((pyIloc rows a.1).1 == name)) ≤ 1 := by
  intro l
  induction l with
  | nil =>
    intro _ _
    simp
  | cons x xs ih =>
    intro hndl hsub
    rw [List.map_cons, List.nodup_cons] at hndl
    rw [List.countP_cons]
    by_cases hx : ((pyIloc rows x.1).1 == name) = true
    · have h0 : xs.countP (fun a => ((pyIloc rows a.1).1 == name)) = 0 := by
        rw [List.countP_eq_zero]
        intro y hy hyx
        obtain ⟨jx, hjx, hx1⟩ := hsub x (List.mem_cons_self _ _)
        obtain ⟨jy, hjy, hy1⟩ := hsub y (List.mem_cons_of_mem _ hy)
        rw [hx1, pyIloc_ofNat] at hx
        rw [hy1, pyIloc_ofNat] at hyx
        have hje : jy = jx :=
          name_index_unique rows name hnd hjy hjx (beq_iff_eq.mp hyx) (beq_iff_eq.mp hx)
        have hxin : x.1 ∈ xs.map Prod.fst := by
          rw [hx1, ← hje, ← hy1]
          exact List.mem_map_of_mem Prod.fst hy
        exact hndl.1 hxin
      rw [h0, if_pos hx]
    · rw [if_neg hx]
      have := ih hndl.2 (fun y hy => hsub y (List.mem_cons_of_mem _ hy))
      omega

/-- C2 counterexample: store of M = 2 records with unique names, query "a"
with k = 3: FAISS pads the k+1 = 4 requested neighbors with id -1, `iloc[-1]`
resolves the padding to the *last* row, and the result has 3 rows (the last
record duplicated three times), not min(k, M-1) = 1. -/
theorem C2_overcount_counterexample :
    query_by_sample [("a", [(0 : ℚ)]), ("b", [1])] "a" 3
      = Except.ok [(("b", [(1 : ℚ)]), ((1 : ℚ) : WithTop ℚ)),
          (("b", [(1 : ℚ)]), ⊤), (("b", [(1 : ℚ)]), ⊤)] ∧
    ¬ (3 = min 3 ([("a", [(0 : ℚ)]), ("b", [1])].length - 1)) := by
  constructor
  · rfl
  · decide

/-- C2 (amended): for a store with unique file names containing the queried
record, the result of `query_by_name` never contains the query's own
file name (for every k); and provided k ≤ M - 1 it has exactly
min(k, M-1) = k rows. For k ≥ M the FAISS padding joined through `iloc[-1]`
can duplicate the last record and the row count exceeds min(k, M-1). -/
theorem C2_self_exclusion (rows : List Row) (name : String) (k : Nat)
    (hnd : (rows.map Prod.fst).Nodup) (hmem : name ∈ rows.map Prod.fst) :
    (∀ res, query_by_sample rows name k = Except.ok res →
      ∀ p ∈ res, p.1.1 ≠ name) ∧
    (k + 1 ≤ rows.length →
      ∃ res, query_by_sample rows name k = Except.ok res ∧
        res.length = min k (rows.length - 1)) := by
  obtain ⟨r, hr, hrname⟩ := List.mem_map.mp hmem
  have hsome : (rows.findIdx? (fun r => r.1 == name)).isSome := by
    rw [List.findIdx?_isSome]
    exact List.any_eq_true.mpr ⟨r, hr, by simp [hrname]⟩
  obtain ⟨i, hfind⟩ := Option.isSome_iff_exists.mp hsome
  constructor
  · intro res hres p hp
    simp only [query_by_sample, hfind, Except.ok.injEq] at hres
    subst hres
    have hp' := List.take_subset _ _ hp
    have hpf := (List.mem_filter.mp hp').2
    simpa using hpf
  · intro hk
    have hqbs : query_by_sample rows name k
        = Except.ok ((((query_by_vector (rows.map Prod.snd)
              ((rows.getD i ("", [])).2) (k + 1)).map
              (fun p => (pyIloc rows p.1, p.2))).filter
              (fun p => !(p.1.1 == name))).take k) := by
      simp only [query_by_sample, hfind]
    refine ⟨_, hqbs, ?_⟩
    have hmlen : (rows.map Prod.snd).length = rows.length := List.length_map _ _
    have hpad : k + 1 - (rows.map Prod.snd).length = 0 := by omega
    set L := ((scoredList (rows.map Prod.snd)
        ((rows.getD i ("", [])).2)).insertionSort neighborLE).take (k + 1) with hLdef
    have hres : query_by_vector (rows.map Prod.snd) ((rows.getD i ("", [])).2) (k + 1)
        = L.map (fun p => (p.1, (p.2 : WithTop ℚ))) := by
      rw [hLdef]
      simp only [query_by_vector, faissSearch, hpad, List.replicate_zero,
        List.append_nil]
    have hLlen : L.length = k + 1 := by
      rw [hLdef]
      simp only [List.length_take, List.length_insertionSort, length_scoredList, hmlen]
      omega
    have hLnodup : (L.map Prod.fst).Nodup := by
      have hperm := (List.perm_insertionSort neighborLE
          (scoredList (rows.map Prod.snd) ((rows.getD i ("", [])).2))).map Prod.fst
      have hndfull : (((scoredList (rows.map Prod.snd)
          ((rows.getD i ("", [])).2)).insertionSort neighborLE).map Prod.fst).Nodup :=
        hperm.nodup_iff.mpr (nodup_scoredList_fst _ _)
      rw [hLdef, List.map_take]
      exact List.Nodup.sublist (List.take_sublist _ _) hndfull
    have hLsub : ∀ x ∈ L, ∃ j : Nat, j < rows.length ∧ x.1 = (j : Int) := by
      intro x hx
      rw [hLdef] at hx
      have hx' : x ∈ scoredList (rows.map Prod.snd) ((rows.getD i ("", [])).2) :=
        (List.mem_insertionSort neighborLE).mp (List.take_subset _ _ hx)
      obtain ⟨j, hj, rfl⟩ := mem_scoredList.mp hx'
      exact ⟨j, by omega, rfl⟩
    have hcount := countP_iloc_le_one rows name hnd L hLnodup hLsub
    have hflen : (((L.map (fun p => (p.1, (p.2 : WithTop ℚ)))).map
        (fun p => (pyIloc rows p.1, p.2))).filter
        (fun p => !(p.1.1 == name))).length
        = L.countP (fun a => !((pyIloc rows a.1).1 == name)) := by
      rw [← List.countP_eq_length_filter, List.map_map, List.countP_map]
      rfl
    have hbn : L.countP (fun a => !((pyIloc rows a.1).1 == name))
        = L.length - L.countP (fun a => ((pyIloc rows a.1).1 == name)) :=
      countP_bnot L _
    rw [hres, List.length_take, hflen, hbn, hLlen]
    omega

theorem C2_self_exclusion_witness :
    (∀ res, query_by_sample [("a", [(0 : ℚ)]), ("b", [1])] "a" 1 = Except.ok res →
      ∀ p ∈ res, p.1.1 ≠ "a") ∧
    (1 + 1 ≤ [("a", [(0 : ℚ)]), ("b", [1])].length →
      ∃ res, query_by_sample [("a", [(0 : ℚ)]), ("b", [1])] "a" 1 = Except.ok res ∧
        res.length = min 1 ([("a", [(0 : ℚ)]), ("b", [1])].length - 1)) :=
  C2_self_exclusion [("a", [(0 : ℚ)]), ("b", [1])] "a" 1 (by decide) (by decide)

end SampleFinder
